import Mathlib

set_option maxRecDepth 100000

/-!
Shallow embedding of the encryption layer of lrzip-next (src/src/util.c):
passphrase stretching (lrz_stretch), key derivation (lrz_keygen), the
CBC / ciphertext-stealing block transform (lrz_crypt) and the encrypted
header codec (decrypt_header), together with theorems settling the frozen
claims about this code.

Buffers are lists of byte values (Nat, always below 256 in the C code; the
algorithms only move and xor bytes, so no modular arithmetic is needed).
Pointer operations that can leave the bounds of an allocation return
Option.none, modelling undefined behaviour of the C program.  The external
primitives (SHA-512, the AES block permutations) are parameters of the
model; theorems assume of them only what libgcrypt guarantees (digest
length, block length, decryption inverting encryption on one block).
-/

/-- Byte strings, the contents of C uchar buffers. -/
abbrev Bytes : Type := List Nat

/-- Cipher block size in bytes.  Modelled from the spec: CBC_LEN lives in
lrzip_private.h which is not among the sources; the spec fixes 16-byte
blocks and IVs, and xor128 in util.c xors exactly two 64-bit words. -/
def CBC_LEN : Nat := 16

/-- Hash digest size in bytes.  Modelled from the spec: HASH_LEN lives in
lrzip_private.h; the spec fixes 64-byte (SHA-512) digests. -/
def HASH_LEN : Nat := 64

/-- Salt size in bytes.  Modelled from the spec: SALT_LEN lives in
lrzip_private.h; the spec fixes a 16-byte per-block salt. -/
def SALT_LEN : Nat := 16

/-- Capacity of the passphrase part of the keygen scratch buffer.  Modelled
from the spec: PASS_LEN lives in lrzip_private.h and its exact value is not
fixed by the sources in src/; any capacity at least the passphrase length
gives the same hashed prefix, so a small value is used. -/
def PASS_LEN : Nat := 64

/-- Bytewise xor of two buffers (the xor128 idiom of util.c, generalised to
the byte lists it acts on; both operands have length CBC_LEN at every use). -/
def xorB (a b : Bytes) : Bytes := List.zipWith Nat.xor a b

/-- Read n bytes at a (possibly negative) offset from a buffer; reading
outside the allocation is undefined behaviour, hence none. -/
def readBytes (buf : Bytes) (off : Int) (n : Nat) : Option Bytes :=
  if 0 ≤ off ∧ off.toNat + n ≤ buf.length then
    some ((buf.drop off.toNat).take n)
  else none

/-- memcpy of src to a (possibly negative) offset inside buf; writing
outside the allocation is undefined behaviour, hence none. -/
def writeBytes (buf : Bytes) (off : Int) (src : Bytes) : Option Bytes :=
  if 0 ≤ off ∧ off.toNat + src.length ≤ buf.length then
    some (buf.take off.toNat ++ src ++ buf.drop (off.toNat + src.length))
  else none

/-- Split a buffer into k consecutive CBC_LEN-byte blocks. -/
def chunkN : Nat → Bytes → List Bytes
  | 0, _ => []
  | k + 1, l => l.take CBC_LEN :: chunkN k (l.drop CBC_LEN)

/-- The block view of a buffer whose length is a multiple of CBC_LEN (the
only shape the CBC calls of lrz_crypt are given). -/
def toBlocks (l : Bytes) : List Bytes := chunkN (l.length / CBC_LEN) l

/-- One gcry CBC-mode encryption call: encrypt a list of blocks starting
from chaining state st (the IV or the last ciphertext block of the previous
call on the same handle); returns the ciphertext blocks and the handle
state after the call. -/
def cbcEnc (E : Bytes → Bytes) : Bytes → List Bytes → List Bytes × Bytes
  | st, [] => ([], st)
  | st, p :: ps =>
    let c := E (xorB st p)
    ((c :: (cbcEnc E c ps).1), (cbcEnc E c ps).2)

/-- One gcry CBC-mode decryption call: decrypt a list of ciphertext blocks
starting from chaining state st; returns the plaintext blocks and the
handle state after the call (the last ciphertext block seen). -/
def cbcDec (D : Bytes → Bytes) : Bytes → List Bytes → List Bytes × Bytes
  | st, [] => ([], st)
  | st, c :: cs =>
    let p := xorB st (D c)
    ((p :: (cbcDec D c cs).1), (cbcDec D c cs).2)

/-- The fields of rzip_control that the embedded functions read:
control.hash (uchar[HASH_LEN]), control.salt_pass with salt_pass_len equal
to its length, and control.encloops. -/
structure Control where
  hash : Bytes
  salt_pass : Bytes
  encloops : Nat
deriving DecidableEq, Inhabited

/-- A gcry_md_hd_t handle: opened by gcry_md_open, accumulating the bytes
written to it, released by gcry_md_close. -/
structure MdHandle where
  opened : Bool
  closed : Bool
  acc : Bytes
deriving DecidableEq, Inhabited

/-- State left behind by lrz_stretch: the control block and the local hash
handle as the function returns. -/
structure StretchOut where
  ctrl : Control
  md : MdHandle
deriving DecidableEq, Inhabited

/-- The 8 bytes written for the i64 counter after htole64: the little-endian
representation of j. -/
def le64 (j : Nat) : Bytes := (List.range 8).map fun i => j / 256 ^ i % 256

/-- lrz_stretch (util.c:541-555): open a SHA-512 handle, write
n = encloops * HASH_LEN / (salt_pass_len + sizeof(i64)) rounds of
counter-then-passphrase into it, and return.  The source neither reads the
final digest into control.hash nor closes the handle. -/
def lrz_stretch (ctrl : Control) : StretchOut :=
  let md0 : MdHandle := { opened := true, closed := false, acc := [] }
  let n := ctrl.encloops * HASH_LEN / (ctrl.salt_pass.length + 8)
  let md := (List.range n).foldl
    (fun h j => { h with acc := h.acc ++ le64 j ++ ctrl.salt_pass }) md0
  { ctrl := ctrl, md := md }

/-- lrz_keygen (util.c:418-446).  H is the SHA-512 digest function of
libgcrypt.  The scratch buffer uchar buf[HASH_LEN+SALT_LEN+PASS_LEN] is
modelled with zero-initial contents; each memcpy is a writeBytes.  The
mdOpenOk flag stands for the error value of gcry_md_open, which the source
discards (the comment at util.c:429 reads: No error checking for gcrypt
key/iv hash functions), so the flag is not consulted. -/
def lrz_keygen (mdOpenOk : Bool) (H : Bytes → Bytes) (ctrl : Control)
    (salt : Bytes) : Option (Bytes × Bytes) :=
  let n := HASH_LEN + SALT_LEN + ctrl.salt_pass.length
  let buf0 : Bytes := List.replicate (HASH_LEN + SALT_LEN + PASS_LEN) 0
  match writeBytes buf0 0 (ctrl.hash.take HASH_LEN) with
  | none => none
  | some buf1 =>
  match writeBytes buf1 (HASH_LEN : Int) (salt.take SALT_LEN) with
  | none => none
  | some buf2 =>
  match writeBytes buf2 ((HASH_LEN + SALT_LEN : Nat) : Int) ctrl.salt_pass with
  | none => none
  | some buf3 =>
    let key := (H (buf3.take n)).take HASH_LEN
    match writeBytes buf3 0 (key.take HASH_LEN) with
    | none => none
    | some buf4 =>
    match writeBytes buf4 (HASH_LEN : Int) (salt.take SALT_LEN) with
    | none => none
    | some buf5 =>
    match writeBytes buf5 ((HASH_LEN + SALT_LEN : Nat) : Int) ctrl.salt_pass with
    | none => none
    | some buf6 =>
      let iv := (H (buf6.take n)).take HASH_LEN
      some (key, iv)

/-- The direction argument of lrz_crypt: LRZ_ENCRYPT, LRZ_DECRYPT or
LRZ_VALIDATE (the constants live in lrzip_private.h; only equality with
LRZ_ENCRYPT is tested by the source, so an inductive type is faithful). -/
inductive LrzDir where
  | encrypt
  | decrypt
  | validate
deriving DecidableEq, Inhabited

/-- Success flags for each fallible libgcrypt call site of lrz_crypt, in
source order.  A false flag makes the corresponding call return a nonzero
gcry_error, taking the failure_goto path. -/
structure GcryEnv where
  mdOpenOk : Bool
  cbcOpenOk : Bool
  cbcSetkeyOk : Bool
  cbcSetivOk : Bool
  encBufOk : Bool
  encTailOk : Bool
  ecbOpenOk : Bool
  ecbSetkeyOk : Bool
  decBufOk : Bool
  ecbDecOk : Bool
  decTailOk : Bool
  decFullOk : Bool
deriving DecidableEq, Inhabited

/-- The environment in which every libgcrypt call succeeds. -/
def GcryEnv.ok : GcryEnv :=
  ⟨true, true, true, true, true, true, true, true, true, true, true, true⟩

/-- Observable state when lrz_crypt returns: its return value, the data
buffer, the key and iv scratch arrays (uchar[HASH_LEN]) and their mlock
status, and the byte strings passed to each gcry_cipher_setkey and
gcry_cipher_setiv invocation. -/
structure CryptOut where
  ret : Bool
  buf : Bytes
  key : Bytes
  iv : Bytes
  keyLocked : Bool
  ivLocked : Bool
  keyArgs : List Bytes
  ivArgs : List Bytes
deriving DecidableEq, Inhabited

/-- The single exit point of lrz_crypt (the error label, util.c:533-538),
reached by fallthrough on success and by every failure_goto: memset key and
iv to zero and munlock them, then return ret. -/
def cryptFinish (ret : Bool) (buf : Bytes) (keyArgs ivArgs : List Bytes) :
    CryptOut :=
  { ret := ret, buf := buf,
    key := List.replicate HASH_LEN 0, iv := List.replicate HASH_LEN 0,
    keyLocked := false, ivLocked := false,
    keyArgs := keyArgs, ivArgs := ivArgs }

/-- The observable data a run of lrz_crypt arrives at the error label with:
the return flag, the data buffer, and the byte strings that were passed to
the gcry_cipher_setkey and gcry_cipher_setiv invocations. -/
abbrev CryptExit : Type := Bool × Bytes × List Bytes × List Bytes

/-- The error label applied to an exit: zero and release the key and iv
scratch arrays and package the outcome. -/
def cryptEpilogue (x : CryptExit) : CryptOut :=
  cryptFinish x.1 x.2.1 x.2.2.1 x.2.2.2

/-- The body of lrz_crypt (util.c:448-532), from entry to the jump or
fallthrough into the error label.  AESe and AESd are the keyed AES block
permutations of libgcrypt (argument: the key material handed to
gcry_cipher_setkey).  M and N follow the source; the CBC calls are cbcEnc
and cbcDec on the block view; every memcpy addressed relative to buf is a
readBytes and writeBytes so that the out-of-bounds accesses of the source
(reachable when len is below CBC_LEN) surface as none. -/
def lrzCryptBody (env : GcryEnv) (H : Bytes → Bytes)
    (AESe AESd : Bytes → Bytes → Bytes) (ctrl : Control)
    (buf : Bytes) (salt : Bytes) (dir : LrzDir) : Option CryptExit :=
  let len := buf.length
  let M := len % CBC_LEN
  let N := len - M
  match lrz_keygen env.mdOpenOk H ctrl salt with
  | none => none
  | some (key, iv) =>
  if !env.cbcOpenOk then some ((false, buf, [], []) : CryptExit) else
  let k16 := key.take CBC_LEN
  if !env.cbcSetkeyOk then some ((false, buf, [k16], []) : CryptExit) else
  let iv16 := iv.take CBC_LEN
  if !env.cbcSetivOk then some ((false, buf, [k16], [iv16]) : CryptExit) else
  let E := AESe k16
  let D := AESd k16
  match dir with
  | LrzDir.encrypt =>
    if !env.encBufOk then some ((false, buf, [k16], [iv16]) : CryptExit) else
    let r := cbcEnc E iv16 (toBlocks (buf.take N))
    let buf1 := r.1.flatten ++ buf.drop N
    if M = 0 then some ((true, buf1, [k16], [iv16]) : CryptExit) else
    let tmp0 := (buf1.drop N).take M ++ List.replicate (CBC_LEN - M) 0
    if !env.encTailOk then some ((false, buf1, [k16], [iv16]) : CryptExit) else
    let tmp1 := E (xorB r.2 tmp0)
    match readBytes buf1 ((N : Int) - (CBC_LEN : Nat)) M with
    | none => none
    | some stolen =>
    match writeBytes buf1 (N : Int) stolen with
    | none => none
    | some buf2 =>
    match writeBytes buf2 ((N : Int) - (CBC_LEN : Nat)) tmp1 with
    | none => none
    | some buf3 => some ((true, buf3, [k16], [iv16]) : CryptExit)
  | _ =>
    if M ≠ 0 then
      if !env.ecbOpenOk then some ((false, buf, [k16], [iv16]) : CryptExit) else
      if !env.ecbSetkeyOk then
        some ((false, buf, [k16, k16], [iv16]) : CryptExit) else
      if N < CBC_LEN then none else
      let nlen := N - CBC_LEN
      if !env.decBufOk then
        some ((false, buf, [k16, k16], [iv16]) : CryptExit) else
      let r := cbcDec D iv16 (toBlocks (buf.take nlen))
      let buf1 := r.1.flatten ++ buf.drop nlen
      if !env.ecbDecOk then
        some ((false, buf1, [k16, k16], [iv16]) : CryptExit) else
      let tmp0 := D ((buf1.drop nlen).take CBC_LEN)
      let tmp1 := (buf1.drop N).take M ++ List.replicate (CBC_LEN - M) 0
      let tmp0x := xorB tmp0 tmp1
      match writeBytes buf1 (N : Int) (tmp0x.take M) with
      | none => none
      | some buf2 =>
      let tmp1x := tmp1.take M ++ (tmp0x.drop M).take (CBC_LEN - M)
      if !env.decTailOk then
        some ((false, buf2, [k16, k16], [iv16]) : CryptExit) else
      let lastP := xorB r.2 (D tmp1x)
      match writeBytes buf2 ((nlen : Nat) : Int) lastP with
      | none => none
      | some buf3 => some ((true, buf3, [k16, k16], [iv16]) : CryptExit)
    else
      if !env.decFullOk then some ((false, buf, [k16], [iv16]) : CryptExit) else
      let r := cbcDec D iv16 (toBlocks buf)
      some ((true, r.1.flatten, [k16], [iv16]) : CryptExit)

/-- lrz_crypt (util.c:448-539): run the body, then pass through the single
error label (util.c:533-538), reached by fallthrough on success and by every
failure_goto, which zeroes and munlocks the key and iv scratch arrays. -/
def lrz_crypt (env : GcryEnv) (H : Bytes → Bytes)
    (AESe AESd : Bytes → Bytes → Bytes) (ctrl : Control)
    (buf : Bytes) (salt : Bytes) (dir : LrzDir) : Option CryptOut :=
  (lrzCryptBody env H AESe AESd ctrl buf salt dir).map cryptEpilogue

/-- The four header fields as the memory images decrypt_header copies:
c_type is one byte, the other three are the 8-byte images of i64 values. -/
structure HeaderFields where
  c_type : Nat
  c_len : Bytes
  u_len : Bytes
  last_head : Bytes
deriving DecidableEq, Inhabited

/-- The packing memcpys of decrypt_header (util.c:565-568): type at offset
0 (1 byte), c_len at 1, u_len at 9, last_head at 17 (8 bytes each). -/
def packHeader (f : HeaderFields) : Bytes :=
  [f.c_type] ++ f.c_len.take 8 ++ f.u_len.take 8 ++ f.last_head.take 8

/-- The unpacking memcpys of decrypt_header (util.c:573-576). -/
def unpackHeader (b : Bytes) : HeaderFields :=
  { c_type := b.getD 0 0
    c_len := (b.drop 1).take 8
    u_len := (b.drop 9).take 8
    last_head := (b.drop 17).take 8 }

/-- decrypt_header (util.c:560-578).  head points at the salt followed by
the 25-byte header area (buf = head + SALT_LEN); the four fields are packed
into that area, lrz_decrypt (lrz_crypt with the given direction) runs over
the 25 bytes keyed by the salt at the start of head, and on success the
transformed bytes are copied back out.  Returns the C return value, the
final contents of head and the final values of the field outputs. -/
def decrypt_header (env : GcryEnv) (H : Bytes → Bytes)
    (AESe AESd : Bytes → Bytes → Bytes) (ctrl : Control)
    (head : Bytes) (f : HeaderFields) (dir : LrzDir) :
    Option (Bool × Bytes × HeaderFields) :=
  match writeBytes head (SALT_LEN : Int) (packHeader f) with
  | none => none
  | some head1 =>
  match lrz_crypt env H AESe AESd ctrl ((head1.drop SALT_LEN).take 25)
      (head1.take SALT_LEN) dir with
  | none => none
  | some out =>
    let head2 := head1.take SALT_LEN ++ out.buf ++ head1.drop (SALT_LEN + 25)
    if out.ret then some (true, head2, unpackHeader out.buf)
    else some (false, head2, f)


/-! ### Concrete instances used by the witness and counterexample theorems -/

/-- A stand-in digest function for concrete runs: a 64-byte digest whose
bytes depend on the input (length HASH_LEN for every input, like SHA-512). -/
def H0 : Bytes → Bytes := fun x => List.replicate HASH_LEN ((x.sum + x.length) % 256)

/-- A stand-in block permutation for concrete runs: pad to one block and
reverse.  On CBC_LEN-byte blocks it is an involution, so it serves as both
the encryption and the decryption direction of the block cipher. -/
def AESr (k b : Bytes) : Bytes :=
  ((b ++ List.replicate CBC_LEN 0).take CBC_LEN).reverse

def ctrl0 : Control :=
  { hash := List.replicate HASH_LEN 7, salt_pass := [1, 2, 3], encloops := 5 }

def salt0 : Bytes := List.replicate SALT_LEN 3

def f0 : HeaderFields :=
  { c_type := 4, c_len := List.replicate 8 1, u_len := List.replicate 8 2,
    last_head := List.replicate 8 5 }

def head0 : Bytes := List.replicate (SALT_LEN + 25) 9

/-- The environment where gcry_cipher_open fails. -/
def envCbcFail : GcryEnv := { GcryEnv.ok with cbcOpenOk := false }

/-- The output of a concrete 30-byte encryption run. -/
def out30 : CryptOut :=
  (lrz_crypt GcryEnv.ok H0 AESr AESr ctrl0 (List.range 30) salt0
    LrzDir.encrypt).getD default

/-- The output of a concrete 16-byte encryption run. -/
def out16enc : CryptOut :=
  (lrz_crypt GcryEnv.ok H0 AESr AESr ctrl0 (List.range 16) salt0
    LrzDir.encrypt).getD default

/-- The output of a concrete 30-byte decryption run (exercises the
ciphertext-stealing tail, where the ECB handle is keyed a second time). -/
def out30dec : CryptOut :=
  (lrz_crypt GcryEnv.ok H0 AESr AESr ctrl0 (List.range 30) salt0
    LrzDir.decrypt).getD default

/-- The output of the header-codec cipher call on the packed f0 fields. -/
def hdrOut0 : CryptOut :=
  (lrz_crypt GcryEnv.ok H0 AESr AESr ctrl0 (packHeader f0) (head0.take SALT_LEN)
    LrzDir.encrypt).getD default

/-- The output of the header cipher call when the CBC handle cannot open. -/
def hdrOutFail : CryptOut :=
  (lrz_crypt envCbcFail H0 AESr AESr ctrl0 (packHeader f0) (head0.take SALT_LEN)
    LrzDir.decrypt).getD default

/-! ### Byte-string lemmas -/

lemma xorB_length (a b : Bytes) : (xorB a b).length = min a.length b.length :=
  List.length_zipWith ..

lemma CBC_LEN_pos : 0 < CBC_LEN := by decide

lemma chunkN_length : ∀ (k : Nat) (l : Bytes), (chunkN k l).length = k := by
  intro k
  induction k with
  | zero => intro l; rfl
  | succ k ih => intro l; simp [chunkN, ih]

lemma chunkN_blocks : ∀ (k : Nat) (l : Bytes), l.length = CBC_LEN * k →
    ∀ b ∈ chunkN k l, b.length = CBC_LEN := by
  intro k
  induction k with
  | zero => intro l _ b hb; simp [chunkN] at hb
  | succ k ih =>
    intro l hl b hb
    have hdrop : (l.drop CBC_LEN).length = CBC_LEN * k := by
      rw [List.length_drop, hl, Nat.mul_succ, Nat.add_sub_cancel]
    rw [chunkN, List.mem_cons] at hb
    rcases hb with rfl | hb
    · rw [List.length_take, hl, Nat.mul_succ]
      exact Nat.min_eq_left (Nat.le_add_left _ _)
    · exact ih (l.drop CBC_LEN) hdrop b hb

lemma flatten_blocks_length (cs : List Bytes)
    (h : ∀ b ∈ cs, b.length = CBC_LEN) :
    cs.flatten.length = CBC_LEN * cs.length := by
  induction cs with
  | nil => rfl
  | cons c cs ih =>
    rw [List.flatten_cons, List.length_append, List.length_cons,
      h c (List.mem_cons_self c cs),
      ih (fun b hb => h b (List.mem_cons_of_mem c hb)), Nat.mul_succ]
    ring

lemma toBlocks_eq (l : Bytes) (k : Nat) (h : l.length = CBC_LEN * k) :
    toBlocks l = chunkN k l := by
  unfold toBlocks
  rw [h, Nat.mul_div_cancel_left _ CBC_LEN_pos]


/-! ### CBC chaining lemmas -/

lemma cbcEnc_fst_length (E : Bytes → Bytes) : ∀ (st : Bytes) (ps : List Bytes),
    ((cbcEnc E st ps).1).length = ps.length := by
  intro st ps
  induction ps generalizing st with
  | nil => rfl
  | cons p ps ih => simp [cbcEnc, ih]

lemma cbcEnc_blocks (E : Bytes → Bytes) (hE : ∀ b, (E b).length = CBC_LEN) :
    ∀ (st : Bytes) (ps : List Bytes), ∀ c ∈ (cbcEnc E st ps).1, c.length = CBC_LEN := by
  intro st ps
  induction ps generalizing st with
  | nil => intro c hc; simp [cbcEnc] at hc
  | cons p ps ih =>
    intro c hc
    rw [cbcEnc, List.mem_cons] at hc
    rcases hc with rfl | hc
    · exact hE _
    · exact ih _ c hc

lemma cbcDec_blocks (D : Bytes → Bytes) (hD : ∀ b, (D b).length = CBC_LEN) :
    ∀ (cs : List Bytes) (st : Bytes), st.length = CBC_LEN →
    (∀ c ∈ cs, c.length = CBC_LEN) →
    ∀ p ∈ (cbcDec D st cs).1, p.length = CBC_LEN := by
  intro cs
  induction cs with
  | nil => intro st _ _ p hp; simp [cbcDec] at hp
  | cons c cs ih =>
    intro st hst hcs p hp
    rw [cbcDec, List.mem_cons] at hp
    rcases hp with rfl | hp
    · rw [xorB_length, hst, hD _, Nat.min_self]
    · exact ih c (hcs c (List.mem_cons_self c cs))
        (fun q hq => hcs q (List.mem_cons_of_mem c hq)) p hp

lemma cbcDec_fst_length (D : Bytes → Bytes) : ∀ (st : Bytes) (cs : List Bytes),
    ((cbcDec D st cs).1).length = cs.length := by
  intro st cs
  induction cs generalizing st with
  | nil => rfl
  | cons c cs ih => simp [cbcDec, ih]

/-! ### Pointer-operation lemmas -/

lemma readBytes_nat (buf : Bytes) (k n : Nat) (h : k + n ≤ buf.length) :
    readBytes buf (k : Int) n = some ((buf.drop k).take n) := by
  simp only [readBytes, Int.toNat_ofNat]
  rw [if_pos ⟨Int.ofNat_nonneg k, h⟩]

lemma writeBytes_nat (buf : Bytes) (k : Nat) (src : Bytes)
    (h : k + src.length ≤ buf.length) :
    writeBytes buf (k : Int) src =
      some (buf.take k ++ src ++ buf.drop (k + src.length)) := by
  simp only [writeBytes, Int.toNat_ofNat]
  rw [if_pos ⟨Int.ofNat_nonneg k, h⟩]

lemma writeBytes_exact (pre mid post src : Bytes) (h : mid.length = src.length) :
    writeBytes (pre ++ mid ++ post) ((pre.length : Nat) : Int) src =
      some (pre ++ src ++ post) := by
  rw [writeBytes_nat _ _ _ (by simp only [List.length_append]; omega)]
  have h1 : List.take pre.length (pre ++ mid ++ post) = pre := by
    rw [List.append_assoc, List.take_left]
  have h2 : List.drop (pre.length + src.length) (pre ++ mid ++ post) = post := by
    rw [show pre.length + src.length = (pre ++ mid).length by simp [h],
      List.drop_left]
  rw [h1, h2]

lemma writeBytes_zero (mid post src : Bytes) (h : mid.length = src.length) :
    writeBytes (mid ++ post) 0 src = some (src ++ post) := by
  unfold writeBytes
  rw [if_pos]
  · simp only [Int.toNat_zero, List.take_zero, Nat.zero_add, List.nil_append]
    rw [show src.length = mid.length from h.symm, List.drop_left]
  · refine ⟨le_refl 0, ?_⟩
    simp only [Int.toNat_zero, Nat.zero_add, List.length_append, ← h]
    omega

/-! ### Key derivation: characterisation -/

lemma lrz_keygen_eq (b : Bool) (H : Bytes → Bytes) (ctrl : Control) (salt : Bytes)
    (hp : ctrl.salt_pass.length ≤ PASS_LEN)
    (hh : ctrl.hash.length = HASH_LEN)
    (hs : SALT_LEN ≤ salt.length)
    (hH : ∀ x, (H x).length = HASH_LEN) :
    lrz_keygen b H ctrl salt =
      some (H (ctrl.hash ++ salt.take SALT_LEN ++ ctrl.salt_pass),
            H (H (ctrl.hash ++ salt.take SALT_LEN ++ ctrl.salt_pass)
               ++ salt.take SALT_LEN ++ ctrl.salt_pass)) := by
  have hsl : (salt.take SALT_LEN).length = SALT_LEN := by
    rw [List.length_take]; omega
  have hht : ctrl.hash.take HASH_LEN = ctrl.hash := by
    rw [← hh]; exact List.take_length ctrl.hash
  have hrep : List.replicate (HASH_LEN + SALT_LEN + PASS_LEN) (0 : Nat) =
      List.replicate HASH_LEN (0 : Nat) ++
        List.replicate (SALT_LEN + PASS_LEN) (0 : Nat) := by
    rw [← List.replicate_add, Nat.add_assoc]
  have w1 : writeBytes (List.replicate (HASH_LEN + SALT_LEN + PASS_LEN) (0 : Nat)) 0
      (ctrl.hash.take HASH_LEN) =
      some (ctrl.hash ++ List.replicate (SALT_LEN + PASS_LEN) (0 : Nat)) := by
    rw [hrep, hht, writeBytes_zero _ _ _ (by simp [hh])]
  have w2 : writeBytes (ctrl.hash ++ List.replicate (SALT_LEN + PASS_LEN) (0 : Nat))
      (HASH_LEN : Int) (salt.take SALT_LEN) =
      some (ctrl.hash ++ salt.take SALT_LEN ++ List.replicate PASS_LEN (0 : Nat)) := by
    rw [show (List.replicate (SALT_LEN + PASS_LEN) (0 : Nat)) =
        List.replicate SALT_LEN (0 : Nat) ++ List.replicate PASS_LEN (0 : Nat) from
        (List.replicate_add ..),
      show ((HASH_LEN : Nat) : Int) = ((ctrl.hash.length : Nat) : Int) by rw [hh],
      ← List.append_assoc]
    exact writeBytes_exact _ _ _ _ (by simp [hsl])
  have hpassrep : List.replicate PASS_LEN (0 : Nat) =
      List.replicate ctrl.salt_pass.length (0 : Nat) ++
        List.replicate (PASS_LEN - ctrl.salt_pass.length) (0 : Nat) := by
    rw [← List.replicate_add, Nat.add_sub_cancel' hp]
  have w3 : writeBytes
      (ctrl.hash ++ salt.take SALT_LEN ++ List.replicate PASS_LEN (0 : Nat))
      ((HASH_LEN + SALT_LEN : Nat) : Int) ctrl.salt_pass =
      some (ctrl.hash ++ salt.take SALT_LEN ++ ctrl.salt_pass ++
        List.replicate (PASS_LEN - ctrl.salt_pass.length) (0 : Nat)) := by
    rw [hpassrep,
      show ((HASH_LEN + SALT_LEN : Nat) : Int) =
        (((ctrl.hash ++ salt.take SALT_LEN).length : Nat) : Int) by
        simp [hh, hsl],
      ← List.append_assoc]
    have := writeBytes_exact (ctrl.hash ++ salt.take SALT_LEN)
      (List.replicate ctrl.salt_pass.length (0 : Nat))
      (List.replicate (PASS_LEN - ctrl.salt_pass.length) (0 : Nat))
      ctrl.salt_pass (by simp)
    rw [this]
  unfold lrz_keygen
  simp only [w1, w2, w3]
  have htake3 : (ctrl.hash ++ salt.take SALT_LEN ++ ctrl.salt_pass ++
      List.replicate (PASS_LEN - ctrl.salt_pass.length) (0 : Nat)).take
        (HASH_LEN + SALT_LEN + ctrl.salt_pass.length) =
      ctrl.hash ++ salt.take SALT_LEN ++ ctrl.salt_pass :=
    List.take_left' (by rw [List.length_append, List.length_append, hh, hsl])
  simp only [htake3]
  have hkey : (H (ctrl.hash ++ salt.take SALT_LEN ++ ctrl.salt_pass)).take HASH_LEN =
      H (ctrl.hash ++ salt.take SALT_LEN ++ ctrl.salt_pass) := by
    rw [← hH (ctrl.hash ++ salt.take SALT_LEN ++ ctrl.salt_pass)]
    exact List.take_length _
  simp only [hkey]
  have w4 : writeBytes (ctrl.hash ++ salt.take SALT_LEN ++ ctrl.salt_pass ++
      List.replicate (PASS_LEN - ctrl.salt_pass.length) (0 : Nat)) 0
      (H (ctrl.hash ++ salt.take SALT_LEN ++ ctrl.salt_pass)) =
      some (H (ctrl.hash ++ salt.take SALT_LEN ++ ctrl.salt_pass) ++
        (salt.take SALT_LEN ++ (ctrl.salt_pass ++
          List.replicate (PASS_LEN - ctrl.salt_pass.length) (0 : Nat)))) := by
    rw [List.append_assoc, List.append_assoc]
    exact writeBytes_zero _ _ _ (by rw [hh, hH])
  simp only [w4]
  have w5 : writeBytes (H (ctrl.hash ++ salt.take SALT_LEN ++ ctrl.salt_pass) ++
      (salt.take SALT_LEN ++ (ctrl.salt_pass ++
        List.replicate (PASS_LEN - ctrl.salt_pass.length) (0 : Nat))))
      (HASH_LEN : Int) (salt.take SALT_LEN) =
      some (H (ctrl.hash ++ salt.take SALT_LEN ++ ctrl.salt_pass) ++
        salt.take SALT_LEN ++ (ctrl.salt_pass ++
          List.replicate (PASS_LEN - ctrl.salt_pass.length) (0 : Nat))) := by
    rw [show ((HASH_LEN : Nat) : Int) =
        (((H (ctrl.hash ++ salt.take SALT_LEN ++ ctrl.salt_pass)).length : Nat) : Int) by
        rw [hH],
      ← List.append_assoc]
    exact writeBytes_exact _ _ _ _ (by simp)
  simp only [w5]
  have w6 : writeBytes (H (ctrl.hash ++ salt.take SALT_LEN ++ ctrl.salt_pass) ++
      salt.take SALT_LEN ++ (ctrl.salt_pass ++
        List.replicate (PASS_LEN - ctrl.salt_pass.length) (0 : Nat)))
      ((HASH_LEN + SALT_LEN : Nat) : Int) ctrl.salt_pass =
      some (H (ctrl.hash ++ salt.take SALT_LEN ++ ctrl.salt_pass) ++
        salt.take SALT_LEN ++ ctrl.salt_pass ++
        List.replicate (PASS_LEN - ctrl.salt_pass.length) (0 : Nat)) := by
    rw [show ((HASH_LEN + SALT_LEN : Nat) : Int) =
        (((H (ctrl.hash ++ salt.take SALT_LEN ++ ctrl.salt_pass) ++
          salt.take SALT_LEN).length : Nat) : Int) by simp [hH, hsl],
      ← List.append_assoc]
    have := writeBytes_exact
      (H (ctrl.hash ++ salt.take SALT_LEN ++ ctrl.salt_pass) ++ salt.take SALT_LEN)
      ctrl.salt_pass
      (List.replicate (PASS_LEN - ctrl.salt_pass.length) (0 : Nat))
      ctrl.salt_pass rfl
    rw [this]
  simp only [w6]
  have htake6 : (H (ctrl.hash ++ salt.take SALT_LEN ++ ctrl.salt_pass) ++
      salt.take SALT_LEN ++ ctrl.salt_pass ++
      List.replicate (PASS_LEN - ctrl.salt_pass.length) (0 : Nat)).take
        (HASH_LEN + SALT_LEN + ctrl.salt_pass.length) =
      H (ctrl.hash ++ salt.take SALT_LEN ++ ctrl.salt_pass) ++
        salt.take SALT_LEN ++ ctrl.salt_pass :=
    List.take_left' (by rw [List.length_append, List.length_append, hH, hsl])
  simp only [htake6]
  have hiv : (H (H (ctrl.hash ++ salt.take SALT_LEN ++ ctrl.salt_pass) ++
      salt.take SALT_LEN ++ ctrl.salt_pass)).take HASH_LEN =
      H (H (ctrl.hash ++ salt.take SALT_LEN ++ ctrl.salt_pass) ++
        salt.take SALT_LEN ++ ctrl.salt_pass) := by
    rw [← hH (H (ctrl.hash ++ salt.take SALT_LEN ++ ctrl.salt_pass) ++
      salt.take SALT_LEN ++ ctrl.salt_pass)]
    exact List.take_length _
  simp only [hiv]

/-! ### The success path of lrz_crypt, with the libgcrypt bookkeeping
reduced away (proved equal to lrz_crypt below; E and D are the block
permutations under the truncated derived key, k16 and iv16 the truncated
key material). -/

def cryptEncBody (E : Bytes → Bytes) (k16 iv16 buf : Bytes) : Option CryptExit :=
  let len := buf.length
  let M := len % CBC_LEN
  let N := len - M
  let r := cbcEnc E iv16 (toBlocks (buf.take N))
  let buf1 := r.1.flatten ++ buf.drop N
  if M = 0 then some ((true, buf1, [k16], [iv16]) : CryptExit) else
  let tmp0 := (buf1.drop N).take M ++ List.replicate (CBC_LEN - M) 0
  let tmp1 := E (xorB r.2 tmp0)
  match readBytes buf1 ((N : Int) - (CBC_LEN : Nat)) M with
  | none => none
  | some stolen =>
  match writeBytes buf1 (N : Int) stolen with
  | none => none
  | some buf2 =>
  match writeBytes buf2 ((N : Int) - (CBC_LEN : Nat)) tmp1 with
  | none => none
  | some buf3 => some ((true, buf3, [k16], [iv16]) : CryptExit)

def cryptDecBody (D : Bytes → Bytes) (k16 iv16 buf : Bytes) : Option CryptExit :=
  let len := buf.length
  let M := len % CBC_LEN
  let N := len - M
  if M ≠ 0 then
    if N < CBC_LEN then none else
    let nlen := N - CBC_LEN
    let r := cbcDec D iv16 (toBlocks (buf.take nlen))
    let buf1 := r.1.flatten ++ buf.drop nlen
    let tmp0 := D ((buf1.drop nlen).take CBC_LEN)
    let tmp1 := (buf1.drop N).take M ++ List.replicate (CBC_LEN - M) 0
    let tmp0x := xorB tmp0 tmp1
    match writeBytes buf1 (N : Int) (tmp0x.take M) with
    | none => none
    | some buf2 =>
    let tmp1x := tmp1.take M ++ (tmp0x.drop M).take (CBC_LEN - M)
    let lastP := xorB r.2 (D tmp1x)
    match writeBytes buf2 ((nlen : Nat) : Int) lastP with
    | none => none
    | some buf3 => some ((true, buf3, [k16, k16], [iv16]) : CryptExit)
  else
    let r := cbcDec D iv16 (toBlocks buf)
    some ((true, r.1.flatten, [k16], [iv16]) : CryptExit)

def cryptEncryptOk (E : Bytes → Bytes) (k16 iv16 buf : Bytes) : Option CryptOut :=
  (cryptEncBody E k16 iv16 buf).map cryptEpilogue

def cryptDecryptOk (D : Bytes → Bytes) (k16 iv16 buf : Bytes) : Option CryptOut :=
  (cryptDecBody D k16 iv16 buf).map cryptEpilogue

lemma lrz_crypt_ok_encrypt (H : Bytes → Bytes) (Ae Ad : Bytes → Bytes → Bytes)
    (ctrl : Control) (salt buf key iv : Bytes)
    (hkg : lrz_keygen true H ctrl salt = some (key, iv)) :
    lrz_crypt GcryEnv.ok H Ae Ad ctrl buf salt LrzDir.encrypt =
      cryptEncryptOk (Ae (key.take CBC_LEN)) (key.take CBC_LEN)
        (iv.take CBC_LEN) buf := by
  unfold lrz_crypt lrzCryptBody
  rw [show GcryEnv.ok.mdOpenOk = true from rfl, hkg]
  rfl

lemma lrz_crypt_ok_decrypt (H : Bytes → Bytes) (Ae Ad : Bytes → Bytes → Bytes)
    (ctrl : Control) (salt buf key iv : Bytes)
    (hkg : lrz_keygen true H ctrl salt = some (key, iv)) :
    lrz_crypt GcryEnv.ok H Ae Ad ctrl buf salt LrzDir.decrypt =
      cryptDecryptOk (Ad (key.take CBC_LEN)) (key.take CBC_LEN)
        (iv.take CBC_LEN) buf := by
  unfold lrz_crypt lrzCryptBody
  rw [show GcryEnv.ok.mdOpenOk = true from rfl, hkg]
  rfl

lemma cryptEncryptOk_M0 (E : Bytes → Bytes) (k16 iv16 buf : Bytes)
    (hM : buf.length % CBC_LEN = 0) :
    cryptEncryptOk E k16 iv16 buf =
      some (cryptFinish true (cbcEnc E iv16 (toBlocks buf)).1.flatten
        [k16] [iv16]) := by
  simp only [cryptEncryptOk, cryptEncBody, hM, Nat.sub_zero, List.take_length,
    List.drop_length, List.append_nil, if_pos, Option.map_some, cryptEpilogue]
  rfl

lemma cryptEncryptOk_tail (E : Bytes → Bytes) (k16 iv16 buf : Bytes)
    (hE : ∀ b, (E b).length = CBC_LEN)
    (hlen : CBC_LEN ≤ buf.length) (hM : buf.length % CBC_LEN ≠ 0) :
    cryptEncryptOk E k16 iv16 buf =
      some (cryptFinish true
        ((cbcEnc E iv16
            (toBlocks (buf.take (buf.length - buf.length % CBC_LEN)))).1.flatten.take
            (buf.length - buf.length % CBC_LEN - CBC_LEN) ++
          E (xorB
            (cbcEnc E iv16
              (toBlocks (buf.take (buf.length - buf.length % CBC_LEN)))).2
            (buf.drop (buf.length - buf.length % CBC_LEN) ++
              List.replicate (CBC_LEN - buf.length % CBC_LEN) 0)) ++
          ((cbcEnc E iv16
            (toBlocks (buf.take (buf.length - buf.length % CBC_LEN)))).1.flatten.drop
            (buf.length - buf.length % CBC_LEN - CBC_LEN)).take
            (buf.length % CBC_LEN))
        [k16] [iv16]) := by
  have hdm := Nat.div_add_mod buf.length CBC_LEN
  have hMlt : buf.length % CBC_LEN < CBC_LEN := Nat.mod_lt _ CBC_LEN_pos
  have hq1 : 1 ≤ buf.length / CBC_LEN := (Nat.one_le_div_iff CBC_LEN_pos).mpr hlen
  simp only [cryptEncryptOk, cryptEncBody]
  rw [if_neg hM]
  set M := buf.length % CBC_LEN with hMdef
  set N := buf.length - M with hNdef
  have hNk : N = CBC_LEN * (buf.length / CBC_LEN) := by omega
  have hN16 : CBC_LEN ≤ N := by
    rw [hNk]; exact Nat.le_mul_of_pos_right CBC_LEN hq1
  have hNle : N ≤ buf.length := Nat.sub_le _ _
  have htakeN : (buf.take N).length = CBC_LEN * (buf.length / CBC_LEN) := by
    rw [List.length_take]; omega
  have hC := cbcEnc_blocks E hE iv16 (toBlocks (buf.take N))
  have hCflat : ((cbcEnc E iv16 (toBlocks (buf.take N))).1).flatten.length = N := by
    rw [flatten_blocks_length _ hC, cbcEnc_fst_length, toBlocks_eq _ _ htakeN,
      chunkN_length, hNk]
  have hdropN : (buf.drop N).length = M := by
    rw [List.length_drop]; omega
  have htmp0 : (((cbcEnc E iv16 (toBlocks (buf.take N))).1.flatten ++
      buf.drop N).drop N).take M = buf.drop N := by
    rw [List.drop_left' hCflat, ← hdropN, List.take_length]
  simp only [htmp0]
  have hread : readBytes
      ((cbcEnc E iv16 (toBlocks (buf.take N))).1.flatten ++ buf.drop N)
      ((N : Int) - (CBC_LEN : Nat)) M =
      some (((cbcEnc E iv16
        (toBlocks (buf.take N))).1.flatten.drop (N - CBC_LEN)).take M) := by
    rw [show ((N : Int) - (CBC_LEN : Nat)) = ((N - CBC_LEN : Nat) : Int) by omega,
      readBytes_nat _ _ _ (by rw [List.length_append, hCflat, hdropN]; omega)]
    rw [List.drop_append_eq_append_drop, hCflat,
      show N - CBC_LEN - N = 0 by omega, List.drop_zero,
      List.take_append_eq_append_take, List.length_drop, hCflat,
      show M - (N - (N - CBC_LEN)) = 0 by omega, List.take_zero, List.append_nil]
  simp only [hread]
  have hsrclen : (((cbcEnc E iv16
      (toBlocks (buf.take N))).1.flatten.drop (N - CBC_LEN)).take M).length = M := by
    rw [List.length_take, List.length_drop, hCflat]; omega
  have hw1 : writeBytes
      ((cbcEnc E iv16 (toBlocks (buf.take N))).1.flatten ++ buf.drop N)
      ((N : Nat) : Int)
      (((cbcEnc E iv16 (toBlocks (buf.take N))).1.flatten.drop (N - CBC_LEN)).take M) =
      some ((cbcEnc E iv16 (toBlocks (buf.take N))).1.flatten ++
        ((cbcEnc E iv16 (toBlocks (buf.take N))).1.flatten.drop (N - CBC_LEN)).take M) := by
    rw [writeBytes_nat _ _ _
      (by rw [hsrclen, List.length_append, hCflat, hdropN])]
    have hdropAll : List.drop (N + M)
        ((cbcEnc E iv16 (toBlocks (buf.take N))).1.flatten ++ buf.drop N) = [] :=
      List.drop_eq_nil_of_le (by rw [List.length_append, hCflat, hdropN])
    rw [List.take_left' hCflat, hsrclen, hdropAll, List.append_nil]
  simp only [hw1]
  have hw2 : writeBytes
      ((cbcEnc E iv16 (toBlocks (buf.take N))).1.flatten ++
        ((cbcEnc E iv16 (toBlocks (buf.take N))).1.flatten.drop (N - CBC_LEN)).take M)
      ((N : Int) - (CBC_LEN : Nat))
      (E (xorB (cbcEnc E iv16 (toBlocks (buf.take N))).2
        (buf.drop N ++ List.replicate (CBC_LEN - M) 0))) =
      some ((cbcEnc E iv16 (toBlocks (buf.take N))).1.flatten.take (N - CBC_LEN) ++
        E (xorB (cbcEnc E iv16 (toBlocks (buf.take N))).2
          (buf.drop N ++ List.replicate (CBC_LEN - M) 0)) ++
        ((cbcEnc E iv16 (toBlocks (buf.take N))).1.flatten.drop (N - CBC_LEN)).take M) := by
    rw [show ((N : Int) - (CBC_LEN : Nat)) = ((N - CBC_LEN : Nat) : Int) by omega,
      writeBytes_nat _ _ _
        (by rw [hE, List.length_append, hCflat, hsrclen]; omega)]
    rw [hE, show N - CBC_LEN + CBC_LEN = N by omega,
      List.take_append_eq_append_take, hCflat,
      show N - CBC_LEN - N = 0 by omega, List.take_zero, List.append_nil,
      List.drop_left' hCflat]
  simp only [hw2]
  rfl

lemma cbcDec_snd_length (D : Bytes → Bytes) :
    ∀ (cs : List Bytes) (st : Bytes), st.length = CBC_LEN →
    (∀ c ∈ cs, c.length = CBC_LEN) → ((cbcDec D st cs).2).length = CBC_LEN := by
  intro cs
  induction cs with
  | nil => intro st hst _; exact hst
  | cons c cs ih =>
    intro st _ hcs
    exact ih c (hcs c (List.mem_cons_self c cs))
      (fun q hq => hcs q (List.mem_cons_of_mem c hq))

lemma cryptDecryptOk_M0 (D : Bytes → Bytes) (k16 iv16 buf : Bytes)
    (hM : buf.length % CBC_LEN = 0) :
    cryptDecryptOk D k16 iv16 buf =
      some (cryptFinish true (cbcDec D iv16 (toBlocks buf)).1.flatten
        [k16] [iv16]) := by
  simp only [cryptDecryptOk, cryptDecBody, hM, ne_eq, eq_self_iff_true,
    not_true_eq_false, if_false]
  rfl

lemma stretch_foldl (pass : Bytes) : ∀ (js : List Nat) (h : MdHandle),
    (js.foldl (fun h j => { h with acc := h.acc ++ le64 j ++ pass }) h).acc =
      h.acc ++ (js.map (fun j => le64 j ++ pass)).flatten := by
  intro js
  induction js with
  | nil => intro h; simp
  | cons j js ih =>
    intro h
    rw [List.foldl_cons, ih]
    simp [List.append_assoc]

lemma stretch_foldl_closed (pass : Bytes) : ∀ (js : List Nat) (h : MdHandle),
    (js.foldl (fun h j => { h with acc := h.acc ++ le64 j ++ pass }) h).closed =
      h.closed := by
  intro js
  induction js with
  | nil => intro h; rfl
  | cons j js ih => intro h; simp only [List.foldl_cons, ih]

/-! ### Properties of the concrete instances -/

lemma H0_length : ∀ x, (H0 x).length = HASH_LEN := by
  intro x
  simp [H0]

lemma AESr_length : ∀ k b, (AESr k b).length = CBC_LEN := by
  intro k b
  simp only [AESr, List.length_reverse, List.length_take, List.length_append,
    List.length_replicate]
  omega

lemma decrypt_header_eq (env : GcryEnv) (H : Bytes → Bytes)
    (AESe AESd : Bytes → Bytes → Bytes) (ctrl : Control)
    (head : Bytes) (f : HeaderFields) (dir : LrzDir)
    (hc : f.c_len.length = 8) (hu : f.u_len.length = 8)
    (hl : f.last_head.length = 8) (hhead : head.length = SALT_LEN + 25) :
    decrypt_header env H AESe AESd ctrl head f dir =
      match lrz_crypt env H AESe AESd ctrl (packHeader f) (head.take SALT_LEN) dir
      with
      | none => none
      | some out =>
        if out.ret then
          some (true, head.take SALT_LEN ++ out.buf, unpackHeader out.buf)
        else some (false, head.take SALT_LEN ++ out.buf, f) := by
  have hpk : (packHeader f).length = 25 := by
    simp [packHeader, hc, hu, hl]
  have hw : writeBytes head (SALT_LEN : Int) (packHeader f) =
      some (head.take SALT_LEN ++ packHeader f) := by
    rw [writeBytes_nat _ _ _ (by omega),
      List.drop_eq_nil_of_le (by omega), List.append_nil]
  have htk16 : (head.take SALT_LEN).length = SALT_LEN := by
    rw [List.length_take]; omega
  have hd16 : (head.take SALT_LEN ++ packHeader f).drop SALT_LEN = packHeader f :=
    List.drop_left' htk16
  have ht25 : (packHeader f).take 25 = packHeader f := by
    rw [← hpk, List.take_length]
  have htk16b : (head.take SALT_LEN ++ packHeader f).take SALT_LEN =
      head.take SALT_LEN := List.take_left' htk16
  have hd41 : (head.take SALT_LEN ++ packHeader f).drop (SALT_LEN + 25) = [] :=
    List.drop_eq_nil_of_le (by rw [List.length_append, htk16, hpk])
  unfold decrypt_header
  rw [hw]
  simp only [hd16, ht25, htk16b, hd41, List.append_nil]

/-! ### Claim theorems -/

/-- Claim C5: lrz_stretch performs exactly
n = encloops * digest_size / (passphrase_length + counter_size) rounds, with
digest_size 64 and counter_size 8, and in round j it feeds the little-endian
8-byte counter with value j followed by the passphrase into one accumulating
hash state that is never reset: the bytes written to the handle are exactly
the concatenation over j below n of le64 j and the passphrase. -/
theorem lrz_stretch_rounds (ctrl : Control) :
    (lrz_stretch ctrl).md.acc =
      ((List.range (ctrl.encloops * 64 / (ctrl.salt_pass.length + 8))).map
        (fun j => le64 j ++ ctrl.salt_pass)).flatten := by
  have h := stretch_foldl ctrl.salt_pass
    (List.range (ctrl.encloops * 64 / (ctrl.salt_pass.length + 8)))
    { opened := true, closed := false, acc := [] }
  rw [List.nil_append] at h
  exact h

/-- Claim C3 (the code contradicts it): after lrz_stretch returns, the
session hash control.hash is unchanged (the final digest was never stored
as the GlobalHash) and the hash handle opened by the stretcher has not been
closed.  The source function ends right after the write loop, with no
gcry_md_read into control.hash and no gcry_md_close. -/
theorem lrz_stretch_no_store_no_close (ctrl : Control) :
    (lrz_stretch ctrl).ctrl.hash = ctrl.hash ∧
      (lrz_stretch ctrl).md.closed = false := by
  refine ⟨rfl, ?_⟩
  exact stretch_foldl_closed ctrl.salt_pass
    (List.range (ctrl.encloops * HASH_LEN / (ctrl.salt_pass.length + 8)))
    { opened := true, closed := false, acc := [] }

/-- Claim C4: key derivation is two sequential hash passes: the key is the
digest of global_hash, salt and passphrase concatenated, and the iv is the
digest of key, salt and passphrase concatenated. -/
theorem lrz_keygen_two_pass (b : Bool) (H : Bytes → Bytes) (ctrl : Control)
    (salt : Bytes)
    (hp : ctrl.salt_pass.length ≤ PASS_LEN)
    (hh : ctrl.hash.length = HASH_LEN)
    (hs : SALT_LEN ≤ salt.length)
    (hH : ∀ x, (H x).length = HASH_LEN) :
    lrz_keygen b H ctrl salt =
      some (H (ctrl.hash ++ salt.take SALT_LEN ++ ctrl.salt_pass),
            H (H (ctrl.hash ++ salt.take SALT_LEN ++ ctrl.salt_pass)
               ++ salt.take SALT_LEN ++ ctrl.salt_pass)) :=
  lrz_keygen_eq b H ctrl salt hp hh hs hH

/-- Witness for C4 at a concrete control block and salt. -/
theorem lrz_keygen_two_pass_witness :
    ctrl0.salt_pass.length ≤ PASS_LEN ∧
    lrz_keygen true H0 ctrl0 salt0 =
      some (H0 (ctrl0.hash ++ salt0.take SALT_LEN ++ ctrl0.salt_pass),
            H0 (H0 (ctrl0.hash ++ salt0.take SALT_LEN ++ ctrl0.salt_pass)
               ++ salt0.take SALT_LEN ++ ctrl0.salt_pass)) :=
  ⟨by decide, lrz_keygen_two_pass true H0 ctrl0 salt0 (by decide) (by decide)
    (by decide) H0_length⟩

/-- Claim C7: on every defined exit path of lrz_crypt, success or failure,
the key and iv scratch arrays have been zeroed and munlocked before the
function returns. -/
theorem lrz_crypt_zeroes_key_iv (env : GcryEnv) (H : Bytes → Bytes)
    (Ae Ad : Bytes → Bytes → Bytes) (ctrl : Control) (buf salt : Bytes)
    (dir : LrzDir) (out : CryptOut)
    (h : lrz_crypt env H Ae Ad ctrl buf salt dir = some out) :
    out.key = List.replicate HASH_LEN 0 ∧ out.iv = List.replicate HASH_LEN 0 ∧
      out.keyLocked = false ∧ out.ivLocked = false := by
  unfold lrz_crypt at h
  obtain ⟨x, hx, hmap⟩ := Option.map_eq_some'.mp h
  rw [← hmap]
  exact ⟨rfl, rfl, rfl, rfl⟩

lemma readBytes_neg (buf : Bytes) (off : Int) (n : Nat) (h : off < 0) :
    readBytes buf off n = none := by
  rw [readBytes, if_neg]
  intro hc
  omega

lemma lrz_crypt_ok_validate (H : Bytes → Bytes) (Ae Ad : Bytes → Bytes → Bytes)
    (ctrl : Control) (salt buf key iv : Bytes)
    (hkg : lrz_keygen true H ctrl salt = some (key, iv)) :
    lrz_crypt GcryEnv.ok H Ae Ad ctrl buf salt LrzDir.validate =
      cryptDecryptOk (Ad (key.take CBC_LEN)) (key.take CBC_LEN)
        (iv.take CBC_LEN) buf := by
  unfold lrz_crypt lrzCryptBody
  rw [show GcryEnv.ok.mdOpenOk = true from rfl, hkg]
  rfl

lemma cryptEncryptOk_short (E : Bytes → Bytes) (k16 iv16 buf : Bytes)
    (h1 : buf.length < CBC_LEN) (hM : buf.length % CBC_LEN ≠ 0) :
    cryptEncryptOk E k16 iv16 buf = none := by
  have hN0 : buf.length - buf.length % CBC_LEN = 0 := by
    rw [Nat.mod_eq_of_lt h1]
    omega
  simp only [cryptEncryptOk, cryptEncBody, hN0]
  rw [if_neg hM, readBytes_neg _ _ _ (by decide)]
  rfl

lemma cryptDecryptOk_short (D : Bytes → Bytes) (k16 iv16 buf : Bytes)
    (h1 : buf.length < CBC_LEN) (hM : buf.length % CBC_LEN ≠ 0) :
    cryptDecryptOk D k16 iv16 buf = none := by
  have hN0 : buf.length - buf.length % CBC_LEN = 0 := by
    rw [Nat.mod_eq_of_lt h1]
    omega
  simp only [cryptDecryptOk, cryptDecBody, hN0]
  rw [if_pos hM, if_pos CBC_LEN_pos]
  rfl

lemma cryptDecryptOk_tail_trace (D : Bytes → Bytes) (k16 iv16 buf : Bytes)
    (hD : ∀ b, (D b).length = CBC_LEN)
    (hiv : iv16.length = CBC_LEN)
    (hlen : CBC_LEN ≤ buf.length) (hM : buf.length % CBC_LEN ≠ 0) :
    ∃ fb, cryptDecryptOk D k16 iv16 buf =
      some (cryptFinish true fb [k16, k16] [iv16]) := by
  have hC16 : CBC_LEN = 16 := rfl
  have hdm := Nat.div_add_mod buf.length CBC_LEN
  have hMlt : buf.length % CBC_LEN < CBC_LEN := Nat.mod_lt _ CBC_LEN_pos
  have hq1 : 1 ≤ buf.length / CBC_LEN := (Nat.one_le_div_iff CBC_LEN_pos).mpr hlen
  have hN16 : CBC_LEN ≤ buf.length - buf.length % CBC_LEN := by
    rw [show buf.length - buf.length % CBC_LEN =
      CBC_LEN * (buf.length / CBC_LEN) by omega]
    exact Nat.le_mul_of_pos_right CBC_LEN hq1
  have htakenlen : (buf.take (buf.length - buf.length % CBC_LEN - CBC_LEN)).length =
      CBC_LEN * (buf.length / CBC_LEN - 1) := by
    rw [List.length_take]
    rw [hC16] at hdm hMlt ⊢
    omega
  have hblocks : ∀ b ∈ toBlocks
      (buf.take (buf.length - buf.length % CBC_LEN - CBC_LEN)), b.length = CBC_LEN := by
    rw [toBlocks_eq _ _ htakenlen]
    exact chunkN_blocks _ _ htakenlen
  have hr1b := cbcDec_blocks D hD
    (toBlocks (buf.take (buf.length - buf.length % CBC_LEN - CBC_LEN))) iv16 hiv hblocks
  have hr2 := cbcDec_snd_length D
    (toBlocks (buf.take (buf.length - buf.length % CBC_LEN - CBC_LEN))) iv16 hiv hblocks
  have hJlen : ((cbcDec D iv16 (toBlocks
      (buf.take (buf.length - buf.length % CBC_LEN - CBC_LEN)))).1).flatten.length =
      buf.length - buf.length % CBC_LEN - CBC_LEN := by
    rw [flatten_blocks_length _ hr1b, cbcDec_fst_length, toBlocks_eq _ _ htakenlen,
      chunkN_length]
    rw [hC16] at hdm hMlt ⊢
    omega
  simp only [cryptDecryptOk, cryptDecBody]
  rw [if_pos hM, if_neg (not_lt.mpr hN16)]
  rw [writeBytes_nat]
  · simp only []
    rw [writeBytes_nat]
    · exact ⟨_, rfl⟩
    · simp only [xorB_length, List.length_append, List.length_take, List.length_drop,
        List.length_replicate, hJlen, hD, hr2]
      rw [hC16] at hdm hMlt ⊢
      omega
  · simp only [xorB_length, List.length_append, List.length_take, List.length_drop,
      List.length_replicate, hJlen, hD]
    rw [hC16] at hdm hMlt ⊢
    omega

/-- Witness for C7: the concrete 30-byte encryption run exits with the key
and iv arrays zeroed and unlocked. -/
theorem lrz_crypt_zeroes_key_iv_witness :
    lrz_crypt GcryEnv.ok H0 AESr AESr ctrl0 (List.range 30) salt0
      LrzDir.encrypt = some out30 ∧
    (out30.key = List.replicate HASH_LEN 0 ∧ out30.iv = List.replicate HASH_LEN 0 ∧
      out30.keyLocked = false ∧ out30.ivLocked = false) :=
  ⟨by decide, lrz_crypt_zeroes_key_iv GcryEnv.ok H0 AESr AESr ctrl0
    (List.range 30) salt0 LrzDir.encrypt out30 (by decide)⟩

/-- Counterexample to C6 as stated: in a completed encryption run the key
handed to gcry_cipher_setkey is not 32 bytes; the source passes CBC_LEN
(16) as the key length for both the CBC and the ECB handle. -/
theorem lrz_crypt_setkey_not_32 :
    lrz_crypt GcryEnv.ok H0 AESr AESr ctrl0 (List.range 16) salt0
      LrzDir.encrypt = some out16enc ∧
    ¬ (∀ k ∈ out16enc.keyArgs, k.length = 32) :=
  ⟨by decide, by decide⟩

/-- Claim C6 (corrected): every key and every iv passed to the cipher
layer by a completed lrz_crypt call — the CBC and ECB setkey calls and
the setiv call — is exactly CBC_LEN = 16 bytes, because the source passes
CBC_LEN, not 32, as the length argument of gcry_cipher_setkey. -/
theorem lrz_crypt_key_iv_len (H : Bytes → Bytes) (Ae Ad : Bytes → Bytes → Bytes)
    (ctrl : Control) (buf salt : Bytes) (dir : LrzDir) (out : CryptOut)
    (hp : ctrl.salt_pass.length ≤ PASS_LEN)
    (hh : ctrl.hash.length = HASH_LEN)
    (hs : SALT_LEN ≤ salt.length)
    (hH : ∀ x, (H x).length = HASH_LEN)
    (hE : ∀ k b, (Ae k b).length = CBC_LEN)
    (hD : ∀ k b, (Ad k b).length = CBC_LEN)
    (h : lrz_crypt GcryEnv.ok H Ae Ad ctrl buf salt dir = some out) :
    (∀ k ∈ out.keyArgs, k.length = CBC_LEN) ∧
    (∀ v ∈ out.ivArgs, v.length = CBC_LEN) := by
  have hkg := lrz_keygen_eq true H ctrl salt hp hh hs hH
  set key := H (ctrl.hash ++ salt.take SALT_LEN ++ ctrl.salt_pass) with hkeyd
  set iv := H (key ++ salt.take SALT_LEN ++ ctrl.salt_pass) with hivd
  have hkl : key.length = HASH_LEN := by rw [hkeyd]; exact hH _
  have hvl : iv.length = HASH_LEN := by rw [hivd]; exact hH _
  have hk16 : (key.take CBC_LEN).length = CBC_LEN := by
    rw [List.length_take, hkl]
    decide
  have hv16 : (iv.take CBC_LEN).length = CBC_LEN := by
    rw [List.length_take, hvl]
    decide
  have hmem1 : ∀ k ∈ [key.take CBC_LEN], k.length = CBC_LEN := by
    intro x hx
    rw [List.mem_singleton] at hx
    rw [hx]
    exact hk16
  have hmem2 : ∀ k ∈ [key.take CBC_LEN, key.take CBC_LEN], k.length = CBC_LEN := by
    intro x hx
    rcases List.mem_cons.mp hx with hx | hx
    · rw [hx]
      exact hk16
    · rw [List.mem_singleton] at hx
      rw [hx]
      exact hk16
  have hmemv : ∀ v ∈ [iv.take CBC_LEN], v.length = CBC_LEN := by
    intro x hx
    rw [List.mem_singleton] at hx
    rw [hx]
    exact hv16
  cases dir with
  | encrypt =>
    rw [lrz_crypt_ok_encrypt H Ae Ad ctrl salt buf key iv hkg] at h
    by_cases hM : buf.length % CBC_LEN = 0
    · rw [cryptEncryptOk_M0 _ _ _ _ hM] at h
      injection h with h2
      rw [← h2]
      exact ⟨hmem1, hmemv⟩
    · by_cases hlen : CBC_LEN ≤ buf.length
      · rw [cryptEncryptOk_tail _ _ _ _ (fun b => hE _ b) hlen hM] at h
        injection h with h2
        rw [← h2]
        exact ⟨hmem1, hmemv⟩
      · rw [cryptEncryptOk_short _ _ _ _ (lt_of_not_le hlen) hM] at h
        cases h
  | decrypt =>
    rw [lrz_crypt_ok_decrypt H Ae Ad ctrl salt buf key iv hkg] at h
    by_cases hM : buf.length % CBC_LEN = 0
    · rw [cryptDecryptOk_M0 _ _ _ _ hM] at h
      injection h with h2
      rw [← h2]
      exact ⟨hmem1, hmemv⟩
    · by_cases hlen : CBC_LEN ≤ buf.length
      · obtain ⟨fb, hfb⟩ := cryptDecryptOk_tail_trace (Ad (key.take CBC_LEN))
          (key.take CBC_LEN) (iv.take CBC_LEN) buf (fun b => hD _ b) hv16
          hlen hM
        rw [hfb] at h
        injection h with h2
        rw [← h2]
        exact ⟨hmem2, hmemv⟩
      · rw [cryptDecryptOk_short _ _ _ _ (lt_of_not_le hlen) hM] at h
        cases h
  | validate =>
    rw [lrz_crypt_ok_validate H Ae Ad ctrl salt buf key iv hkg] at h
    by_cases hM : buf.length % CBC_LEN = 0
    · rw [cryptDecryptOk_M0 _ _ _ _ hM] at h
      injection h with h2
      rw [← h2]
      exact ⟨hmem1, hmemv⟩
    · by_cases hlen : CBC_LEN ≤ buf.length
      · obtain ⟨fb, hfb⟩ := cryptDecryptOk_tail_trace (Ad (key.take CBC_LEN))
          (key.take CBC_LEN) (iv.take CBC_LEN) buf (fun b => hD _ b) hv16
          hlen hM
        rw [hfb] at h
        injection h with h2
        rw [← h2]
        exact ⟨hmem2, hmemv⟩
      · rw [cryptDecryptOk_short _ _ _ _ (lt_of_not_le hlen) hM] at h
        cases h

/-- Witness for C6 on a 30-byte decryption run, where the ECB handle is
keyed a second time: both recorded key lengths and the iv length are
CBC_LEN. -/
theorem lrz_crypt_key_iv_len_witness :
    lrz_crypt GcryEnv.ok H0 AESr AESr ctrl0 (List.range 30) salt0
      LrzDir.decrypt = some out30dec ∧
    ((∀ k ∈ out30dec.keyArgs, k.length = CBC_LEN) ∧
      (∀ v ∈ out30dec.ivArgs, v.length = CBC_LEN)) :=
  ⟨by decide, lrz_crypt_key_iv_len H0 AESr AESr ctrl0 (List.range 30) salt0
    LrzDir.decrypt out30dec (by decide) (by decide) (by decide) H0_length
    AESr_length AESr_length (by decide)⟩

/-- Claim C9: decrypt_header packs the four fields into the 25-byte area
after the salt in the fixed layout c_type (1 byte), c_len (8), u_len (8),
last_head (8); runs lrz_crypt on exactly those 25 packed bytes keyed by
the salt at the start of head; on success unpacks the transformed bytes
into the field outputs; and returns false, leaving the incoming field
values, when the cipher call reports failure. -/
theorem decrypt_header_codec (env : GcryEnv) (H : Bytes → Bytes)
    (AESe AESd : Bytes → Bytes → Bytes) (ctrl : Control)
    (head : Bytes) (f : HeaderFields) (dir : LrzDir)
    (hc : f.c_len.length = 8) (hu : f.u_len.length = 8)
    (hl : f.last_head.length = 8) (hhead : head.length = SALT_LEN + 25) :
    (packHeader f).length = 25 ∧
    packHeader f = [f.c_type] ++ f.c_len ++ f.u_len ++ f.last_head ∧
    decrypt_header env H AESe AESd ctrl head f dir =
      match lrz_crypt env H AESe AESd ctrl (packHeader f) (head.take SALT_LEN)
        dir with
      | none => none
      | some out =>
        if out.ret then
          some (true, head.take SALT_LEN ++ out.buf, unpackHeader out.buf)
        else some (false, head.take SALT_LEN ++ out.buf, f) := by
  refine ⟨?_, ?_, decrypt_header_eq env H AESe AESd ctrl head f dir hc hu hl
    hhead⟩
  · simp [packHeader, hc, hu, hl]
  · rw [packHeader, List.take_of_length_le hc.le, List.take_of_length_le hu.le,
      List.take_of_length_le hl.le]

/-- Witness for C9 at the concrete header fields f0 and header head0. -/
theorem decrypt_header_codec_witness :
    f0.c_len.length = 8 ∧
    ((packHeader f0).length = 25 ∧
     packHeader f0 = [f0.c_type] ++ f0.c_len ++ f0.u_len ++ f0.last_head ∧
     decrypt_header GcryEnv.ok H0 AESr AESr ctrl0 head0 f0 LrzDir.decrypt =
       match lrz_crypt GcryEnv.ok H0 AESr AESr ctrl0 (packHeader f0)
         (head0.take SALT_LEN) LrzDir.decrypt with
       | none => none
       | some out =>
         if out.ret then
           some (true, head0.take SALT_LEN ++ out.buf, unpackHeader out.buf)
         else some (false, head0.take SALT_LEN ++ out.buf, f0)) :=
  ⟨rfl, decrypt_header_codec GcryEnv.ok H0 AESr AESr ctrl0 head0 f0
    LrzDir.decrypt rfl rfl rfl (by decide)⟩

/-- Claim C10: if the cipher call inside decrypt_header completes but
reports failure, the codec returns false with the field outputs exactly
as they were on entry: only the scratch region after the salt was
mutated. -/
theorem decrypt_header_failure_atomic (env : GcryEnv) (H : Bytes → Bytes)
    (AESe AESd : Bytes → Bytes → Bytes) (ctrl : Control)
    (head : Bytes) (f : HeaderFields) (dir : LrzDir) (out : CryptOut)
    (hc : f.c_len.length = 8) (hu : f.u_len.length = 8)
    (hl : f.last_head.length = 8) (hhead : head.length = SALT_LEN + 25)
    (hcrypt : lrz_crypt env H AESe AESd ctrl (packHeader f)
      (head.take SALT_LEN) dir = some out)
    (hfail : out.ret = false) :
    ∃ hd2, decrypt_header env H AESe AESd ctrl head f dir =
      some (false, hd2, f) := by
  rw [decrypt_header_eq env H AESe AESd ctrl head f dir hc hu hl hhead]
  rw [hcrypt]
  simp only [hfail, Bool.false_eq_true, if_false]
  exact ⟨_, rfl⟩

/-- Witness for C10: with the CBC handle failing to open, the header
cipher call completes with ret = false and decrypt_header hands back the
incoming fields f0 unchanged. -/
theorem decrypt_header_failure_atomic_witness :
    (lrz_crypt envCbcFail H0 AESr AESr ctrl0 (packHeader f0)
        (head0.take SALT_LEN) LrzDir.decrypt = some hdrOutFail ∧
      hdrOutFail.ret = false) ∧
    ∃ hd2, decrypt_header envCbcFail H0 AESr AESr ctrl0 head0 f0
      LrzDir.decrypt = some (false, hd2, f0) :=
  ⟨⟨by decide, by decide⟩, decrypt_header_failure_atomic envCbcFail H0 AESr
    AESr ctrl0 head0 f0 LrzDir.decrypt hdrOutFail rfl rfl rfl (by decide)
    (by decide) (by decide)⟩
